import Mathlib

/-!
Verification of the GDLK core specification (spec.md) against the repository.

The repository ships the GDLK language core only through its integration
tests (src/core/tests/compile_error.rs) and its callers (src/cli/src/main.rs,
src/api/src/server/websocket.rs, src/api/src/util.rs).  The compiler and
machine themselves (crate `gdlk` / module `lang`) are not under src/, so they
are modelled here from the spec, as the definitions' doc comments record.
The websocket session handler and the `Valid` wrapper are embedded from the
Rust sources that are present.
-/

set_option autoImplicit false

namespace Gdlk

/-- Hardware description record, from spec section 3 and the struct literal
in src/core/tests/compile_error.rs. -/
structure HardwareSpec where
  num_registers : Nat
  num_stacks : Nat
  max_stack_length : Nat
  deriving DecidableEq, Repr

/-- Puzzle instance record, from spec section 3 and the struct literal in
src/core/tests/compile_error.rs. -/
structure ProgramSpec where
  input : List Int
  expected_output : List Int
  deriving DecidableEq, Repr

/-- Modelled from the spec: CompileError (spec section 3), the tagged variant
produced by the missing core crate.  `parseError` carries the position and a
message holding the offending substring. -/
inductive CompileError where
  | parseError (position : Nat) (message : String)
  | invalidRegisterReference (name : String)
  | invalidStackReference (name : String)
  | readOnlyWrite (name : String)
  deriving DecidableEq, Repr

/-- Modelled from the spec: a source operand is either an integer literal or
an unresolved register name (spec section 3, Instruction). -/
inductive SrcOperand where
  | lit (n : Int)
  | reg (name : String)
  deriving DecidableEq, Repr

/-- Modelled from the spec: the pre-binding instruction AST (spec section 3).
Operand names are retained raw; they are resolved only by the compiler. -/
inductive Instruction where
  | read (dest : String)
  | write (src : SrcOperand)
  | set (dest : String) (src : SrcOperand)
  | add (dest : String) (src : SrcOperand)
  | sub (dest : String) (src : SrcOperand)
  | mul (dest : String) (src : SrcOperand)
  | push (src : SrcOperand) (stack : String)
  | pop (stack : String) (dest : String)
  deriving DecidableEq, Repr

/-! Lexing helpers, modelled from the spec: the lexer works line by line on
raw text (spec section 4.2).  They operate on `List Char` so that concrete
programs evaluate inside the kernel. -/

/-- Split a character list into groups at every character satisfying `p`
(the separators are dropped; empty groups are kept). -/
def splitChars (p : Char → Bool) : List Char → List (List Char)
  | [] => [[]]
  | c :: rest =>
    let groups := splitChars p rest
    if p c then [] :: groups
    else
      match groups with
      | [] => [[c]]
      | g :: gs => (c :: g) :: gs

/-- Whitespace-separated tokens of one source line (spec section 4.2:
one instruction keyword plus whitespace-separated operands). -/
def tokenize (line : List Char) : List String :=
  ((splitChars (fun c => c = ' ' ∨ c = '\t') line).filter (fun g => g ≠ [])).map
    (fun g => String.mk g)

/-- Reads a nonempty all-digit character list as a natural number. -/
def parseNat (cs : List Char) : Option Nat :=
  if cs ≠ [] ∧ cs.all (fun c => c.isDigit) then
    some (cs.foldl (fun acc c => acc * 10 + (c.toNat - 48)) 0)
  else none

/-- Reads an optionally negated integer literal. -/
def parseInt (cs : List Char) : Option Int :=
  match cs with
  | '-' :: rest => (parseNat rest).map (fun n => -(n : Int))
  | _ => (parseNat cs).map (fun n => (n : Int))

/-- Classifies a token as an integer literal or a raw register name
(spec section 6: operands are either an integer literal or a name). -/
def parseSrcOperand (tok : String) : SrcOperand :=
  match parseInt tok.data with
  | some n => SrcOperand.lit n
  | none => SrcOperand.reg tok

/-- Number of operands of each recognized keyword (spec section 6), or
`none` for an unknown keyword. -/
def keywordArity (kw : String) : Option Nat :=
  if kw = "READ" ∨ kw = "WRITE" then some 1
  else if kw = "SET" ∨ kw = "ADD" ∨ kw = "SUB" ∨ kw = "MUL"
      ∨ kw = "PUSH" ∨ kw = "POP" then some 2
  else none

/-- Builds the AST node for a recognized keyword applied to exactly the right
number of operands (spec section 6 grammar). -/
def mkInstruction (kw : String) (ops : List String) : Option Instruction :=
  match kw, ops with
  | "READ", [d] => some (Instruction.read d)
  | "WRITE", [s] => some (Instruction.write (parseSrcOperand s))
  | "SET", [d, s] => some (Instruction.set d (parseSrcOperand s))
  | "ADD", [d, s] => some (Instruction.add d (parseSrcOperand s))
  | "SUB", [d, s] => some (Instruction.sub d (parseSrcOperand s))
  | "MUL", [d, s] => some (Instruction.mul d (parseSrcOperand s))
  | "PUSH", [s, st] => some (Instruction.push (parseSrcOperand s) st)
  | "POP", [st, d] => some (Instruction.pop st d)
  | _, _ => none

/-- Modelled from the spec: parse one nonempty line (spec section 4.2).
Unknown keywords, missing operands and trailing garbage after a recognized
instruction each yield a `parseError` carrying the offending substring and
the line position. -/
def parseLine (lineNum : Nat) (toks : List String) : Except CompileError Instruction :=
  match toks with
  | [] => Except.error (CompileError.parseError lineNum "empty line")
  | kw :: ops =>
    match keywordArity kw with
    | none => Except.error (CompileError.parseError lineNum ("Invalid keyword: " ++ kw))
    | some n =>
      if ops.length < n then
        Except.error (CompileError.parseError lineNum ("Missing operand: " ++ kw))
      else if n < ops.length then
        Except.error (CompileError.parseError lineNum
          ("Invalid keyword: " ++ String.intercalate " " (ops.drop n)))
      else
        match mkInstruction kw ops with
        | some i => Except.ok i
        | none => Except.error (CompileError.parseError lineNum ("Malformed: " ++ kw))

/-- Modelled from the spec: parse the numbered lines in order, skipping blank
lines; on the first syntax error report it and stop (spec section 4.2:
"report and stop", syntax errors are not collected exhaustively). -/
def parseLines : List (Nat × List Char) → Except CompileError (List Instruction)
  | [] => Except.ok []
  | (num, line) :: rest =>
    let toks := tokenize line
    if toks = [] then parseLines rest
    else
      match parseLine num toks with
      | Except.error e => Except.error e
      | Except.ok i =>
        match parseLines rest with
        | Except.error e => Except.error e
        | Except.ok is => Except.ok (i :: is)

/-- Modelled from the spec: the Lexer/Parser, missing from src/.  Turns raw
source text into the instruction sequence or a list of compile errors
(spec section 4.2); an empty source file (no instructions) is one parse
error, matching test_parse_empty_file in src/core/tests/compile_error.rs. -/
def parseProgram (src : String) : Except (List CompileError) (List Instruction) :=
  match parseLines (((splitChars (fun c => c = '\n') src.data).enum.map
      (fun p => (p.1 + 1, p.2)))) with
  | Except.error e => Except.error [e]
  | Except.ok [] => Except.error [CompileError.parseError 0 "empty input"]
  | Except.ok insts => Except.ok insts

/-! Semantic binding, modelled from the spec (section 4.3): the compiler is
missing from src/, so operand resolution and error accumulation follow the
spec's rules, pinned by the expectations in src/core/tests/compile_error.rs. -/

/-- Modelled from the spec: a resolved register reference (spec section 3) —
`userRegister i` is read-write and valid iff `i < num_registers`,
`stackLengthRegister i` is read-only, one per configured stack, and `rli` is
the single fixed reserved read-only register. -/
inductive RegisterRef where
  | userRegister (i : Nat)
  | stackLengthRegister (i : Nat)
  | rli
  deriving DecidableEq, Repr

/-- A resolved source operand: a literal or a resolved register. -/
inductive ResolvedSrc where
  | lit (n : Int)
  | reg (r : RegisterRef)
  deriving DecidableEq, Repr

/-- A fully bound instruction: operands are concrete register/stack slots
(spec section 3, Program). -/
inductive ResolvedInstruction where
  | read (dest : RegisterRef)
  | write (src : ResolvedSrc)
  | set (dest : RegisterRef) (src : ResolvedSrc)
  | add (dest : RegisterRef) (src : ResolvedSrc)
  | sub (dest : RegisterRef) (src : ResolvedSrc)
  | mul (dest : RegisterRef) (src : ResolvedSrc)
  | push (src : ResolvedSrc) (stack : Nat)
  | pop (stack : Nat) (dest : RegisterRef)
  deriving DecidableEq, Repr

/-- A bound program: the resolved instruction sequence, tied to the hardware
spec it was bound against (spec section 3, Program). -/
structure Program where
  hardware : HardwareSpec
  instructions : List ResolvedInstruction
  deriving DecidableEq, Repr

/-- Reads a raw name as a register reference shape: `RX<i>`, `RLI`, or
`RS<i>` (spec section 6 grammar). -/
def parseRegName (name : String) : Option RegisterRef :=
  match name.data with
  | 'R' :: 'X' :: rest => (parseNat rest).map RegisterRef.userRegister
  | 'R' :: 'L' :: 'I' :: [] => some RegisterRef.rli
  | 'R' :: 'S' :: rest => (parseNat rest).map RegisterRef.stackLengthRegister
  | _ => none

/-- Reads a raw name as a stack index: `S<i>` (spec section 6 grammar). -/
def parseStackName (name : String) : Option Nat :=
  match name.data with
  | 'S' :: rest => parseNat rest
  | _ => none

/-- Modelled from the spec: resolve a `dest` operand (spec sections 4.3 and
3).  A user register is valid iff its index is below `num_registers`; a
reference that resolves to a read-only slot (`RLI` or any `RS<i>`) yields
`readOnlyWrite` regardless of whether the reference was otherwise valid. -/
def destCheck (hw : HardwareSpec) (name : String) :
    Except (List CompileError) RegisterRef :=
  match parseRegName name with
  | some (RegisterRef.userRegister i) =>
    if i < hw.num_registers then Except.ok (RegisterRef.userRegister i)
    else Except.error [CompileError.invalidRegisterReference name]
  | some RegisterRef.rli =>
    Except.error [CompileError.readOnlyWrite name]
  | some (RegisterRef.stackLengthRegister _) =>
    Except.error [CompileError.readOnlyWrite name]
  | none => Except.error [CompileError.invalidRegisterReference name]

/-- Modelled from the spec: resolve a register read (spec section 3):
`RX<i>` valid iff `i < num_registers`, `RLI` always valid, `RS<i>` valid iff
`i < num_stacks`. -/
def srcRegCheck (hw : HardwareSpec) (name : String) :
    Except (List CompileError) RegisterRef :=
  match parseRegName name with
  | some (RegisterRef.userRegister i) =>
    if i < hw.num_registers then Except.ok (RegisterRef.userRegister i)
    else Except.error [CompileError.invalidRegisterReference name]
  | some RegisterRef.rli => Except.ok RegisterRef.rli
  | some (RegisterRef.stackLengthRegister i) =>
    if i < hw.num_stacks then Except.ok (RegisterRef.stackLengthRegister i)
    else Except.error [CompileError.invalidRegisterReference name]
  | none => Except.error [CompileError.invalidRegisterReference name]

/-- Resolve a source operand: literals always resolve. -/
def srcCheck (hw : HardwareSpec) : SrcOperand → Except (List CompileError) ResolvedSrc
  | SrcOperand.lit n => Except.ok (ResolvedSrc.lit n)
  | SrcOperand.reg name => (srcRegCheck hw name).map ResolvedSrc.reg

/-- Modelled from the spec: resolve a stack name, valid iff its index is
below `num_stacks` (spec sections 3 and 4.3). -/
def stackCheck (hw : HardwareSpec) (name : String) :
    Except (List CompileError) Nat :=
  match parseStackName name with
  | some i =>
    if i < hw.num_stacks then Except.ok i
    else Except.error [CompileError.invalidStackReference name]
  | none => Except.error [CompileError.invalidStackReference name]

/-- Combines two operand checks, accumulating both error lists in operand
order (spec section 4.3: errors are accumulated, never short-circuited). -/
def comb2 {α β γ : Type} (a : Except (List CompileError) α)
    (b : Except (List CompileError) β) (f : α → β → γ) :
    Except (List CompileError) γ :=
  match a, b with
  | Except.ok x, Except.ok y => Except.ok (f x y)
  | Except.error e, Except.ok _ => Except.error e
  | Except.ok _, Except.error e => Except.error e
  | Except.error e1, Except.error e2 => Except.error (e1 ++ e2)

/-- Modelled from the spec: resolve every operand of one instruction,
collecting its semantic errors in operand order (spec section 4.3). -/
def checkInst (hw : HardwareSpec) : Instruction →
    Except (List CompileError) ResolvedInstruction
  | Instruction.read d => (destCheck hw d).map ResolvedInstruction.read
  | Instruction.write s => (srcCheck hw s).map ResolvedInstruction.write
  | Instruction.set d s => comb2 (destCheck hw d) (srcCheck hw s) ResolvedInstruction.set
  | Instruction.add d s => comb2 (destCheck hw d) (srcCheck hw s) ResolvedInstruction.add
  | Instruction.sub d s => comb2 (destCheck hw d) (srcCheck hw s) ResolvedInstruction.sub
  | Instruction.mul d s => comb2 (destCheck hw d) (srcCheck hw s) ResolvedInstruction.mul
  | Instruction.push s st => comb2 (srcCheck hw s) (stackCheck hw st) ResolvedInstruction.push
  | Instruction.pop st d => comb2 (stackCheck hw st) (destCheck hw d) ResolvedInstruction.pop

/-- The semantic errors one instruction contributes. -/
def instSemErrors (hw : HardwareSpec) (i : Instruction) : List CompileError :=
  match checkInst hw i with
  | Except.ok _ => []
  | Except.error es => es

/-- Modelled from the spec: the compiler, missing from src/.  Runs the
parser, then walks every instruction in source order accumulating every
semantic error into one ordered list; compilation succeeds iff that list is
empty (spec section 4.3). -/
def compile (hw : HardwareSpec) (src : String) :
    Except (List CompileError) Program :=
  match parseProgram src with
  | Except.error errs => Except.error errs
  | Except.ok insts =>
    if (insts.flatMap (instSemErrors hw)).isEmpty then
      Except.ok
        { hardware := hw
          instructions := insts.filterMap (fun i => (checkInst hw i).toOption) }
    else Except.error (insts.flatMap (instSemErrors hw))

/-! The Machine, modelled from the spec (section 4.4): the execution engine
is missing from src/; its states, allocation and per-instruction semantics
follow the spec's words. -/

/-- Machine lifecycle states (spec section 4.4). -/
inductive MState where
  | ready
  | running
  | haltedSuccess
  | haltedFailure
  | haltedError
  deriving DecidableEq, Repr

/-- Whether a state is terminal (spec section 4.4: `Ready`/`Running` are
non-terminal). -/
def MState.isTerminal : MState → Bool
  | MState.haltedSuccess => true
  | MState.haltedFailure => true
  | MState.haltedError => true
  | MState.ready => false
  | MState.running => false

/-- Modelled from the spec: RuntimeError, the execution-class error family
(spec sections 4.4 and 7).  `alreadyTerminated` is the explicit failure for
stepping a machine already in a terminal state (spec section 8). -/
inductive RuntimeError where
  | inputExhausted
  | stackOverflow
  | stackUnderflow
  | alreadyTerminated
  deriving DecidableEq, Repr

/-- Modelled from the spec: mutable execution state (spec section 3,
Machine): register bank, stack bank, input and output queues, program
counter, cycle counter and lifecycle state.  The expected output is kept for
the terminal-state judgement. -/
structure Machine where
  instructions : List ResolvedInstruction
  maxStackLength : Nat
  registers : List Int
  stackBank : List (List Int)
  input : List Int
  output : List Int
  expectedOutput : List Int
  programCounter : Nat
  cycleCount : Nat
  state : MState
  deriving DecidableEq, Repr

/-- Modelled from the spec: `allocate(program, program_spec)` initializes
register/stack banks to zero/empty, loads the input queue, and starts at the
first instruction with zero cycles (spec section 4.4). -/
def Program.allocate (p : Program) (spec : ProgramSpec) : Machine :=
  { instructions := p.instructions
    maxStackLength := p.hardware.max_stack_length
    registers := List.replicate p.hardware.num_registers 0
    stackBank := List.replicate p.hardware.num_stacks []
    input := spec.input
    output := []
    expectedOutput := spec.expected_output
    programCounter := 0
    cycleCount := 0
    state := MState.ready }

/-- Register read.  `RS<i>` holds the length of stack `i` (spec section 3);
the read semantics of `RLI` are an open question in the spec (section 9) and
are modelled as the remaining input length. -/
def Machine.getReg (m : Machine) : RegisterRef → Int
  | RegisterRef.userRegister i => m.registers.getD i 0
  | RegisterRef.stackLengthRegister i => ((m.stackBank.getD i []).length : Int)
  | RegisterRef.rli => (m.input.length : Int)

/-- Register write; only user registers are writable (the compiler rejects
writes to read-only slots, spec section 4.3). -/
def Machine.setReg (m : Machine) (r : RegisterRef) (v : Int) : Machine :=
  match r with
  | RegisterRef.userRegister i => { m with registers := m.registers.set i v }
  | _ => m

/-- Value of a resolved source operand. -/
def Machine.srcValue (m : Machine) : ResolvedSrc → Int
  | ResolvedSrc.lit n => n
  | ResolvedSrc.reg r => m.getReg r

/-- Modelled from the spec: per-instruction semantics (spec section 4.4),
acting on banks and queues only.  The spec leaves the overflow policy open
(wrap or fail); arithmetic is modelled on unbounded integers. -/
def Machine.executeInstruction (m : Machine) :
    ResolvedInstruction → Except RuntimeError Machine
  | ResolvedInstruction.read d =>
    match m.input with
    | [] => Except.error RuntimeError.inputExhausted
    | v :: rest => Except.ok (({ m with input := rest }).setReg d v)
  | ResolvedInstruction.write s =>
    Except.ok { m with output := m.output ++ [m.srcValue s] }
  | ResolvedInstruction.set d s => Except.ok (m.setReg d (m.srcValue s))
  | ResolvedInstruction.add d s =>
    Except.ok (m.setReg d (m.getReg d + m.srcValue s))
  | ResolvedInstruction.sub d s =>
    Except.ok (m.setReg d (m.getReg d - m.srcValue s))
  | ResolvedInstruction.mul d s =>
    Except.ok (m.setReg d (m.getReg d * m.srcValue s))
  | ResolvedInstruction.push s i =>
    if m.maxStackLength ≤ (m.stackBank.getD i []).length then
      Except.error RuntimeError.stackOverflow
    else Except.ok
      { m with stackBank := m.stackBank.set i (m.srcValue s :: m.stackBank.getD i []) }
  | ResolvedInstruction.pop i d =>
    match m.stackBank.getD i [] with
    | [] => Except.error RuntimeError.stackUnderflow
    | v :: rest => Except.ok (({ m with stackBank := m.stackBank.set i rest }).setReg d v)

/-- Modelled from the spec: `execute_next` (spec section 4.4).  Stepping a
terminal machine fails explicitly; executing one instruction advances the
program counter and the cycle counter; when the counter runs past the last
instruction the machine transitions to `haltedSuccess` iff the output queue
equals the expected output exactly, else `haltedFailure`; a per-instruction
failure transitions to `haltedError` and surfaces the error. -/
def Machine.executeNext (m : Machine) : Machine × Option RuntimeError :=
  if m.state.isTerminal then (m, some RuntimeError.alreadyTerminated)
  else
    match m.instructions[m.programCounter]? with
    | none =>
      ({ m with state :=
          if m.output = m.expectedOutput then MState.haltedSuccess
          else MState.haltedFailure }, none)
    | some inst =>
      match m.executeInstruction inst with
      | Except.error e => ({ m with state := MState.haltedError }, some e)
      | Except.ok m1 =>
        ({ m1 with
            programCounter := m.programCounter + 1
            cycleCount := m.cycleCount + 1
            state :=
              if m.instructions.length ≤ m.programCounter + 1 then
                (if m1.output = m.expectedOutput then MState.haltedSuccess
                 else MState.haltedFailure)
              else MState.running }, none)

/-- Completion accessor (spec section 4.4, read-only accessors). -/
def Machine.isComplete (m : Machine) : Bool :=
  m.state.isTerminal

/-- Modelled from the spec: success accessor — true iff the accumulated
output equals the expected output exactly (spec section 8). -/
def Machine.isSuccessful (m : Machine) : Bool :=
  decide (m.output = m.expectedOutput)

/-- Fuel-indexed driver loop of `execute_all`; the fuel is an upper bound on
the number of steps to a terminal state, proved sufficient below. -/
def Machine.executeAllFuel : Nat → Machine → Machine × Except RuntimeError Bool
  | 0, m => (m, Except.ok (decide (m.state = MState.haltedSuccess)))
  | fuel + 1, m =>
    if m.state.isTerminal then
      (m, Except.ok (decide (m.state = MState.haltedSuccess)))
    else
      match m.executeNext with
      | (m1, some e) => (m1, Except.error e)
      | (m1, none) => Machine.executeAllFuel fuel m1

/-- Modelled from the spec: `execute_all` repeatedly calls `execute_next`
until a terminal state is reached, returns whether that state is
`HaltedSuccess`, or propagates the first runtime error (spec section 4.4). -/
def Machine.executeAll (m : Machine) : Machine × Except RuntimeError Bool :=
  Machine.executeAllFuel (m.instructions.length + 1) m

/-- Read-only snapshot of the machine's observable fields (spec section 3,
MachineState). -/
structure MachineState where
  registers : List Int
  stackBank : List (List Int)
  input : List Int
  output : List Int
  programCounter : Nat
  cycleCount : Nat
  deriving DecidableEq, Repr

/-- Snapshot accessor (spec section 4.4; `get_state` in
src/api/src/server/websocket.rs). -/
def Machine.getState (m : Machine) : MachineState :=
  { registers := m.registers
    stackBank := m.stackBank
    input := m.input
    output := m.output
    programCounter := m.programCounter
    cycleCount := m.cycleCount }

/-! The `Valid` wrapper, embedded from src/api/src/util.rs.  The `validator`
crate's trait is modelled as a typeclass; its error type as a list of
field-level messages.  Rust enforces that `Valid` values exist only through
`Valid::validate` by privacy of the `inner` field; the embedding carries
that guarantee as a proof field, so "every `Valid` value has passed
validation" is expressible. -/

/-- Field-level validation errors (the `validator::ValidationErrors` type
used by src/api/src/util.rs), modelled as a list of messages. -/
abbrev ValidationErrors := List String

/-- The `validator::Validate` trait consumed by src/api/src/util.rs,
modelled as a typeclass: a value either passes its validation rules or
yields field-level errors. -/
class Validate (T : Type) where
  check : T → Except ValidationErrors Unit

/-- The wrapper struct of src/api/src/util.rs: a value together with the
privacy-enforced guarantee that it has been validated. -/
structure Valid (T : Type) [Validate T] where
  inner : T
  validated : Validate.check inner = Except.ok ()

/-- Embedded from src/api/src/util.rs `Valid::validate`: run the value's
validation rules; wrap the value iff they pass, otherwise return the errors
without producing a wrapper. -/
def Valid.validate {T : Type} [Validate T] (value : T) :
    Except ValidationErrors (Valid T) :=
  match h : Validate.check value with
  | Except.ok () => Except.ok ⟨value, h⟩
  | Except.error e => Except.error e

/-- Modelled from the spec: the validation rule set for `HardwareSpec` lives
in the missing core crate; the spec (section 4.1) only says it checks
field-level bounds.  A sample instance used to exercise the generic wrapper
on concrete values: counts are bounded by fixed limits. -/
instance : Validate HardwareSpec where
  check hw :=
    if hw.num_registers ≤ 16 ∧ hw.num_stacks ≤ 16 ∧ hw.max_stack_length ≤ 256 then
      Except.ok ()
    else Except.error ["out of range"]

/-! The interactive websocket session, embedded from
src/api/src/server/websocket.rs.  The `lang` module it calls (`compile`
producing a ready `Machine`, and `Machine::execute_next` mutating in place)
is not under src/, so the session handler is embedded parametrically in
those two functions; every theorem about it quantifies over them. -/

/-- The `Environment` record built inline by the `Compile` arm of
`process_msg` (src/api/src/server/websocket.rs lines 143 to 148). -/
structure Environment where
  num_stacks : Nat
  max_stack_size : Option Nat
  input : List Int
  expected_output : List Int
  deriving DecidableEq, Repr

/-- The fixed built-in environment of the `Compile` arm
(src/api/src/server/websocket.rs lines 143 to 148). -/
def wsFixedEnv : Environment :=
  { num_stacks := 0
    max_stack_size := none
    input := [1, 2, 3]
    expected_output := [1, 2, 3] }

/-- Incoming websocket events (src/api/src/server/websocket.rs,
IncomingEvent). -/
inductive IncomingEvent where
  | edit (source : String)
  | compileEvt
  | step
  deriving DecidableEq, Repr

/-- Outgoing websocket events (src/api/src/server/websocket.rs,
OutgoingEvent).  `malformedMessage` corresponds to a serde parse failure of
the raw text, which is outside this embedding (events arrive parsed). -/
inductive OutgoingEvent where
  | source (source : String)
  | machineState (state : MachineState) (is_complete : Bool) (is_successful : Bool)
  | malformedMessage (msg : String)
  | compileError (errs : List CompileError)
  | runtimeError (e : RuntimeError)
  | noCompilation
  deriving DecidableEq, Repr

/-- The `From<&Machine>` conversion (src/api/src/server/websocket.rs lines
70 to 78): snapshot plus completion and success flags. -/
def machineEvent (m : Machine) : OutgoingEvent :=
  OutgoingEvent.machineState m.getState m.isComplete m.isSuccessful

/-- The mutable session state of `ProgramWebsocket`
(src/api/src/server/websocket.rs lines 99 to 108): the current source code
and the optional compiled machine (the heartbeat instant is real time and
not modelled). -/
structure ProgramWebsocket where
  source_code : String
  machine : Option Machine
  deriving DecidableEq, Repr

/-- The fresh session state (`ProgramWebsocket::new`). -/
def ProgramWebsocket.new : ProgramWebsocket :=
  { source_code := "", machine := none }

/-- Embedded from `ProgramWebsocket::process_msg`
(src/api/src/server/websocket.rs lines 123 to 167), parametric in the
missing `lang::compile` and `Machine::execute_next`:
`Edit` stores the new source and discards any machine; `Compile` compiles
the current source against the fixed built-in environment and stores the
machine on success (on error the state is unchanged, by the early return);
`Step` advances the stored machine or fails with `NoCompilation`. -/
def processMsg
    (compileFn : Environment → String → Except (List CompileError) Machine)
    (execFn : Machine → Machine × Option RuntimeError)
    (s : ProgramWebsocket) :
    IncomingEvent → ProgramWebsocket × Except OutgoingEvent OutgoingEvent
  | IncomingEvent.edit source =>
    ({ source_code := source, machine := none }, Except.ok (OutgoingEvent.source source))
  | IncomingEvent.compileEvt =>
    match compileFn wsFixedEnv s.source_code with
    | Except.error errs => (s, Except.error (OutgoingEvent.compileError errs))
    | Except.ok m => ({ s with machine := some m }, Except.ok (machineEvent m))
  | IncomingEvent.step =>
    match s.machine with
    | none => (s, Except.error OutgoingEvent.noCompilation)
    | some m =>
      match execFn m with
      | (m1, some e) =>
        ({ s with machine := some m1 }, Except.error (OutgoingEvent.runtimeError e))
      | (m1, none) => ({ s with machine := some m1 }, Except.ok (machineEvent m1))

/-- Runs a session from the fresh state over a list of incoming events,
keeping the resulting state. -/
def wsRun (compileFn : Environment → String → Except (List CompileError) Machine)
    (execFn : Machine → Machine × Option RuntimeError)
    (events : List IncomingEvent) : ProgramWebsocket :=
  events.foldl (fun s e => (processMsg compileFn execFn s e).1) ProgramWebsocket.new

/-- Iterated in-place stepping of a machine. -/
def execIter (execFn : Machine → Machine × Option RuntimeError) :
    Nat → Machine → Machine
  | 0, m => m
  | k + 1, m => execIter execFn k (execFn m).1

/-- The session invariant: any held machine is the outcome of compiling the
current source text (against the fixed environment) advanced by some number
of execution steps. -/
def wsInvariant
    (compileFn : Environment → String → Except (List CompileError) Machine)
    (execFn : Machine → Machine × Option RuntimeError)
    (s : ProgramWebsocket) : Prop :=
  ∀ m, s.machine = some m →
    ∃ m0 k, compileFn wsFixedEnv s.source_code = Except.ok m0 ∧ m = execIter execFn k m0

/-! Helper lemmas about the parser's error shape. -/

theorem parseLine_error_shape (num : Nat) (toks : List String) (e : CompileError)
    (h : parseLine num toks = Except.error e) :
    ∃ p msg, e = CompileError.parseError p msg := by
  cases toks with
  | nil =>
    simp only [parseLine] at h
    exact ⟨_, _, by injection h with h2; exact h2.symm⟩
  | cons kw ops =>
    simp only [parseLine] at h
    split at h
    · exact ⟨_, _, by injection h with h2; exact h2.symm⟩
    · split at h
      · exact ⟨_, _, by injection h with h2; exact h2.symm⟩
      · split at h
        · exact ⟨_, _, by injection h with h2; exact h2.symm⟩
        · split at h
          · cases h
          · exact ⟨_, _, by injection h with h2; exact h2.symm⟩

theorem parseLines_error_shape (l : List (Nat × List Char)) (e : CompileError)
    (h : parseLines l = Except.error e) :
    ∃ p msg, e = CompileError.parseError p msg := by
  induction l generalizing e with
  | nil => simp [parseLines] at h
  | cons hd rest ih =>
    obtain ⟨num, line⟩ := hd
    simp only [parseLines] at h
    split at h
    · exact ih e h
    · cases hline : parseLine num (tokenize line) with
      | error e2 =>
        rw [hline] at h
        simp only [Except.error.injEq] at h
        exact h ▸ parseLine_error_shape num (tokenize line) e2 hline
      | ok i =>
        rw [hline] at h
        cases hrest : parseLines rest with
        | error e2 =>
          rw [hrest] at h
          simp only [Except.error.injEq] at h
          exact h ▸ ih e2 hrest
        | ok is =>
          rw [hrest] at h
          simp at h

/-- The hardware configuration used by the compile-error integration tests
(src/core/tests/compile_error.rs): one register, one stack, depth five. -/
def testHardware : HardwareSpec := ⟨1, 1, 5⟩

/-- The source text of test_invalid_user_reg_ref
(src/core/tests/compile_error.rs lines 63 to 72). -/
def eightRegSrc : String :=
  "\n        READ RX1\n        WRITE RX2\n        SET RX3 RX0\n        ADD RX4 RX0\n        SUB RX5 RX0\n        MUL RX6 RX0\n        PUSH RX7 S0\n        POP S0 RX8\n        "

/-- C1: for every hardware spec and every source program that parses, the
compiler resolves the operands of every instruction and returns the
concatenation, in source order, of every instruction's semantic errors —
it never stops at the first error; in particular, under hardware
{1 register, 1 stack, depth 5}, the program referencing RX1 through RX8
compiles to exactly eight InvalidRegisterReference errors, in source line
order, each naming the out-of-range register. -/
theorem compile_accumulates_all_semantic_errors :
    (∀ (hw : HardwareSpec) (src : String) (insts : List Instruction)
        (errs : List CompileError),
        parseProgram src = Except.ok insts → compile hw src = Except.error errs →
        errs = insts.flatMap (instSemErrors hw)) ∧
    compile testHardware eightRegSrc = Except.error
      [CompileError.invalidRegisterReference "RX1",
       CompileError.invalidRegisterReference "RX2",
       CompileError.invalidRegisterReference "RX3",
       CompileError.invalidRegisterReference "RX4",
       CompileError.invalidRegisterReference "RX5",
       CompileError.invalidRegisterReference "RX6",
       CompileError.invalidRegisterReference "RX7",
       CompileError.invalidRegisterReference "RX8"] := by
  constructor
  · intro hw src insts errs hp hc
    simp only [compile, hp] at hc
    split at hc
    · cases hc
    · injection hc with h2
      exact h2.symm
  · rfl

/-- Witness for C1 at a concrete input: compiling the one-line program
READ RX1 against the test hardware parses and errors, and its error list is
the concatenation of the per-instruction semantic errors. -/
theorem compile_accumulates_all_semantic_errors_witness :
    [CompileError.invalidRegisterReference "RX1"] =
      [Instruction.read "RX1"].flatMap (instSemErrors testHardware) :=
  compile_accumulates_all_semantic_errors.1 testHardware "READ RX1"
    [Instruction.read "RX1"] [CompileError.invalidRegisterReference "RX1"] rfl rfl

/-- C4: compiling an empty source file, for any hardware spec, fails and
yields exactly one ParseError. -/
theorem compile_empty_source_one_parse_error (hw : HardwareSpec) :
    compile hw "" = Except.error [CompileError.parseError 0 "empty input"] := rfl

/-- Witness for C4 at a concrete hardware spec. -/
theorem compile_empty_source_one_parse_error_witness :
    compile testHardware "" = Except.error [CompileError.parseError 0 "empty input"] :=
  compile_empty_source_one_parse_error testHardware

/-- C5: every error the Lexer/Parser produces is a single ParseError
carrying a position and a message holding the offending substring; for the
single line READ RX1 WRITE RX2 it reports exactly one error for the
trailing text WRITE RX2 and stops, rather than collecting further syntax
errors. -/
theorem parser_reports_one_positioned_error :
    (∀ (src : String) (errs : List CompileError),
        parseProgram src = Except.error errs →
        ∃ p msg, errs = [CompileError.parseError p msg]) ∧
    parseProgram "READ RX1 WRITE RX2" =
      Except.error [CompileError.parseError 1 "Invalid keyword: WRITE RX2"] := by
  constructor
  · intro src errs h
    simp only [parseProgram] at h
    split at h
    next e heq =>
      injection h with h2
      obtain ⟨p, msg, hp⟩ := parseLines_error_shape _ e heq
      exact ⟨p, msg, by rw [← h2, hp]⟩
    next heq =>
      injection h with h2
      exact ⟨0, "empty input", h2.symm⟩
    next insts heq hne => cases h
  · rfl

/-- Witness for C5 at a concrete input: the empty file's error list is a
single positioned ParseError. -/
theorem parser_reports_one_positioned_error_witness :
    ∃ p msg, [CompileError.parseError 0 "empty input"] =
      [CompileError.parseError p msg] :=
  parser_reports_one_positioned_error.1 "" [CompileError.parseError 0 "empty input"] rfl

/-- C6: a stack-length register reference RS i read as a source operand
resolves iff i is below the configured number of stacks, and otherwise
yields exactly one InvalidRegisterReference naming it; concretely, under
one stack, compiling SET RX0 RS1 yields exactly one InvalidRegisterReference
naming RS1. -/
theorem stack_length_register_resolution :
    (∀ (hw : HardwareSpec) (name : String) (i : Nat),
        parseRegName name = some (RegisterRef.stackLengthRegister i) →
        (srcRegCheck hw name = Except.ok (RegisterRef.stackLengthRegister i) ↔
          i < hw.num_stacks) ∧
        (hw.num_stacks ≤ i →
          srcRegCheck hw name =
            Except.error [CompileError.invalidRegisterReference name])) ∧
    compile testHardware "SET RX0 RS1" =
      Except.error [CompileError.invalidRegisterReference "RS1"] := by
  constructor
  · intro hw name i hname
    by_cases hi : i < hw.num_stacks
    · exact ⟨by simp [srcRegCheck, hname, hi], fun hle => absurd hi (by omega)⟩
    · exact ⟨by simp [srcRegCheck, hname, hi], fun _ => by simp [srcRegCheck, hname, hi]⟩
  · rfl

/-- Witness for C6 at a concrete input: RS1 under one stack is rejected
with an InvalidRegisterReference naming RS1. -/
theorem stack_length_register_resolution_witness :
    srcRegCheck testHardware "RS1" =
      Except.error [CompileError.invalidRegisterReference "RS1"] :=
  (stack_length_register_resolution.1 testHardware "RS1" 1 rfl).2 (by decide)

/-- C7: whenever an instruction's dest operand names a read-only register
(RLI or any RS i), the compiler emits a ReadOnlyWrite naming it, whatever
the rest of the instruction holds; concretely SET RLI 5 then SET RS0 5
yields exactly the two ReadOnlyWrite errors, naming RLI then RS0. -/
theorem read_only_dest_write_rejected :
    (∀ (hw : HardwareSpec) (name : String) (src : SrcOperand) (i : Nat),
        (parseRegName name = some RegisterRef.rli ∨
         parseRegName name = some (RegisterRef.stackLengthRegister i)) →
        destCheck hw name = Except.error [CompileError.readOnlyWrite name] ∧
        CompileError.readOnlyWrite name ∈
          instSemErrors hw (Instruction.set name src)) ∧
    compile testHardware "\n        SET RLI 5\n        SET RS0 5\n        " =
      Except.error [CompileError.readOnlyWrite "RLI",
        CompileError.readOnlyWrite "RS0"] := by
  constructor
  · intro hw name src i hname
    have hdest : destCheck hw name = Except.error [CompileError.readOnlyWrite name] := by
      rcases hname with h | h <;> simp [destCheck, h]
    refine ⟨hdest, ?_⟩
    cases hs : srcCheck hw src <;>
      simp [instSemErrors, checkInst, comb2, hdest, hs]
  · rfl

/-- Witness for C7 at a concrete input: SET RLI 5 is rejected with a
ReadOnlyWrite naming RLI even though the assigned value is valid. -/
theorem read_only_dest_write_rejected_witness :
    destCheck testHardware "RLI" = Except.error [CompileError.readOnlyWrite "RLI"] ∧
    CompileError.readOnlyWrite "RLI" ∈
      instSemErrors testHardware (Instruction.set "RLI" (SrcOperand.lit 5)) :=
  read_only_dest_write_rejected.1 testHardware "RLI" (SrcOperand.lit 5) 0 (Or.inl rfl)

/-- C8: a Valid wrapper can only be produced by Valid.validate, which
succeeds returning the wrapped value iff the value passes its validation
rules and otherwise returns the validation errors without producing a
wrapper; consequently every Valid value has been validated. -/
theorem valid_wrapper_only_by_validate (T : Type) [Validate T] (v : T) (w : Valid T) :
    Validate.check w.inner = Except.ok () ∧
    (Valid.validate v = Except.ok w ↔
      (Validate.check v = Except.ok () ∧ w.inner = v)) ∧
    (∀ e, Valid.validate v = Except.error e ↔ Validate.check v = Except.error e) := by
  refine ⟨w.validated, ⟨?_, ?_⟩, fun e => ⟨?_, ?_⟩⟩
  · intro h
    unfold Valid.validate at h
    split at h
    next hv =>
      injection h with h2
      exact ⟨hv, by rw [← h2]⟩
    next e hv => cases h
  · rintro ⟨hv, hw⟩
    unfold Valid.validate
    split
    next hv2 =>
      cases w with
      | mk inner validated =>
        simp only at hw
        subst hw
        rfl
    next e hv2 => rw [hv] at hv2; cases hv2
  · intro h
    unfold Valid.validate at h
    split at h
    next hv => cases h
    next e2 hv =>
      injection h with h2
      rwa [h2] at hv
  · intro h
    unfold Valid.validate
    split
    next hv => rw [h] at hv; cases hv
    next e2 hv => rw [h] at hv; injection hv with h2; rw [h2]

/-! Theorems about the websocket session handler
(src/api/src/server/websocket.rs). -/

theorem execIter_succ_last (ef : Machine → Machine × Option RuntimeError)
    (k : Nat) (m : Machine) :
    execIter ef (k + 1) m = (ef (execIter ef k m)).1 := by
  induction k generalizing m with
  | zero => rfl
  | succ k ih =>
    calc execIter ef (k + 1 + 1) m = execIter ef (k + 1) (ef m).1 := rfl
      _ = (ef (execIter ef k (ef m).1)).1 := ih (ef m).1
      _ = (ef (execIter ef (k + 1) m)).1 := rfl

theorem processMsg_preserves_invariant
    (cf : Environment → String → Except (List CompileError) Machine)
    (ef : Machine → Machine × Option RuntimeError)
    (s : ProgramWebsocket) (e : IncomingEvent)
    (h : wsInvariant cf ef s) : wsInvariant cf ef (processMsg cf ef s e).1 := by
  cases e with
  | edit source =>
    intro m hm
    simp [processMsg] at hm
  | compileEvt =>
    cases hc : cf wsFixedEnv s.source_code with
    | error errs =>
      have hstate : (processMsg cf ef s IncomingEvent.compileEvt).1 = s := by
        simp [processMsg, hc]
      rw [hstate]
      exact h
    | ok mach =>
      have hstate : (processMsg cf ef s IncomingEvent.compileEvt).1 =
          { s with machine := some mach } := by
        simp [processMsg, hc]
      rw [hstate]
      intro m hm
      obtain rfl : mach = m := by simpa using hm
      exact ⟨mach, 0, hc, rfl⟩
  | step =>
    cases hsm : s.machine with
    | none =>
      have hstate : (processMsg cf ef s IncomingEvent.step).1 = s := by
        simp [processMsg, hsm]
      rw [hstate]
      exact h
    | some m2 =>
      obtain ⟨m0, k, hcf, hiter⟩ := h m2 hsm
      cases hef : ef m2 with
      | mk m3 r =>
        have hstate : (processMsg cf ef s IncomingEvent.step).1 =
            { s with machine := some m3 } := by
          cases r <;> simp [processMsg, hsm, hef]
        rw [hstate]
        intro m hm
        obtain rfl : m3 = m := by simpa using hm
        refine ⟨m0, k + 1, hcf, ?_⟩
        rw [execIter_succ_last, ← hiter, hef]

/-- C9: in every reachable state of the websocket session, the held Machine
is the outcome of compiling the current source text (advanced by some number
of steps): an Edit event always discards any in-flight machine while storing
the new source, and a Step event with no compiled machine fails with
NoCompilation rather than stepping.  Stated for every compile and step
function the missing lang module could provide. -/
theorem ws_machine_from_current_source
    (cf : Environment → String → Except (List CompileError) Machine)
    (ef : Machine → Machine × Option RuntimeError) :
    (∀ events, wsInvariant cf ef (wsRun cf ef events)) ∧
    (∀ (s : ProgramWebsocket) (source : String),
        (processMsg cf ef s (IncomingEvent.edit source)).1 =
          { source_code := source, machine := none }) ∧
    (∀ s : ProgramWebsocket, s.machine = none →
        processMsg cf ef s IncomingEvent.step =
          (s, Except.error OutgoingEvent.noCompilation)) := by
  refine ⟨?_, fun s source => rfl, fun s hs => by simp [processMsg, hs]⟩
  intro events
  have base : wsInvariant cf ef ProgramWebsocket.new := by
    intro m hm
    simp [ProgramWebsocket.new] at hm
  suffices hgen : ∀ (evs : List IncomingEvent) (s : ProgramWebsocket),
      wsInvariant cf ef s →
      wsInvariant cf ef (evs.foldl (fun s2 e => (processMsg cf ef s2 e).1) s) by
    exact hgen events ProgramWebsocket.new base
  intro evs
  induction evs with
  | nil => intro s hs; exact hs
  | cons e rest ih =>
    intro s hs
    exact ih _ (processMsg_preserves_invariant cf ef s e hs)

/-- C10: a Compile event is compiled and judged against the one fixed
built-in environment — zero stacks, no stack size limit, input [1, 2, 3],
expected output [1, 2, 3] — and its response depends only on the session's
source text, not on any stored hardware or program spec.  Stated for every
compile and step function the missing lang module could provide. -/
theorem compile_event_uses_fixed_env
    (cf : Environment → String → Except (List CompileError) Machine)
    (ef : Machine → Machine × Option RuntimeError)
    (s : ProgramWebsocket) :
    wsFixedEnv = { num_stacks := 0, max_stack_size := none,
                   input := [1, 2, 3], expected_output := [1, 2, 3] } ∧
    processMsg cf ef s IncomingEvent.compileEvt =
      (match cf wsFixedEnv s.source_code with
       | Except.error errs => (s, Except.error (OutgoingEvent.compileError errs))
       | Except.ok m => ({ s with machine := some m }, Except.ok (machineEvent m))) ∧
    (∀ s2 : ProgramWebsocket, s2.source_code = s.source_code →
        (processMsg cf ef s2 IncomingEvent.compileEvt).2 =
        (processMsg cf ef s IncomingEvent.compileEvt).2) := by
  refine ⟨rfl, rfl, ?_⟩
  intro s2 h
  simp only [processMsg, h]
  cases hc : cf wsFixedEnv s.source_code <;> simp [hc]

/-! Helper lemmas about the machine's stepping. -/

theorem executeInstruction_frame (m : Machine) (i : ResolvedInstruction)
    (m2 : Machine) (h : m.executeInstruction i = Except.ok m2) :
    m2.instructions = m.instructions ∧ m2.expectedOutput = m.expectedOutput ∧
    m2.programCounter = m.programCounter ∧ m2.cycleCount = m.cycleCount ∧
    m2.state = m.state ∧ m2.maxStackLength = m.maxStackLength := by
  cases i with
  | read d =>
    simp only [Machine.executeInstruction] at h
    split at h
    · cases h
    · injection h with h2
      subst h2
      cases d <;> simp [Machine.setReg]
  | write s =>
    simp only [Machine.executeInstruction] at h
    injection h with h2
    subst h2
    simp
  | set d s =>
    simp only [Machine.executeInstruction] at h
    injection h with h2
    subst h2
    cases d <;> simp [Machine.setReg]
  | add d s =>
    simp only [Machine.executeInstruction] at h
    injection h with h2
    subst h2
    cases d <;> simp [Machine.setReg]
  | sub d s =>
    simp only [Machine.executeInstruction] at h
    injection h with h2
    subst h2
    cases d <;> simp [Machine.setReg]
  | mul d s =>
    simp only [Machine.executeInstruction] at h
    injection h with h2
    subst h2
    cases d <;> simp [Machine.setReg]
  | push s i2 =>
    simp only [Machine.executeInstruction] at h
    split at h
    · cases h
    · injection h with h2
      subst h2
      simp
  | pop i2 d =>
    simp only [Machine.executeInstruction] at h
    split at h
    · cases h
    · injection h with h2
      subst h2
      cases d <;> simp [Machine.setReg]

theorem executeInstruction_no_alreadyTerminated (m : Machine)
    (i : ResolvedInstruction) (e : RuntimeError)
    (h : m.executeInstruction i = Except.error e) :
    e ≠ RuntimeError.alreadyTerminated := by
  cases i with
  | read d =>
    simp only [Machine.executeInstruction] at h
    split at h
    · injection h with h2
      rw [← h2]
      intro hc
      cases hc
    · cases h
  | write s => simp only [Machine.executeInstruction] at h; cases h
  | set d s => simp only [Machine.executeInstruction] at h; cases h
  | add d s => simp only [Machine.executeInstruction] at h; cases h
  | sub d s => simp only [Machine.executeInstruction] at h; cases h
  | mul d s => simp only [Machine.executeInstruction] at h; cases h
  | push s i2 =>
    simp only [Machine.executeInstruction] at h
    split at h
    · injection h with h2
      rw [← h2]
      intro hc
      cases hc
    · cases h
  | pop i2 d =>
    simp only [Machine.executeInstruction] at h
    split at h
    · injection h with h2
      rw [← h2]
      intro hc
      cases hc
    · cases h

theorem executeNext_error_halts (m m1 : Machine) (e : RuntimeError)
    (hterm : m.state.isTerminal = false) (h : m.executeNext = (m1, some e)) :
    m1.state = MState.haltedError ∧ e ≠ RuntimeError.alreadyTerminated := by
  unfold Machine.executeNext at h
  rw [if_neg (by simp [hterm])] at h
  split at h
  next hnone => simp at h
  next inst hsome =>
    split at h
    next e2 hexec =>
      simp only [Prod.mk.injEq, Option.some.injEq] at h
      obtain ⟨h1, h2⟩ := h
      subst h1
      subst h2
      exact ⟨rfl, executeInstruction_no_alreadyTerminated m _ _ hexec⟩
    next m2 hexec => simp at h

theorem executeNext_ok_cases (m m1 : Machine)
    (hterm : m.state.isTerminal = false) (h : m.executeNext = (m1, none)) :
    m1.state.isTerminal = true ∨
    (m1.instructions = m.instructions ∧
      m1.programCounter = m.programCounter + 1 ∧
      m.programCounter < m.instructions.length) := by
  unfold Machine.executeNext at h
  rw [if_neg (by simp [hterm])] at h
  split at h
  next hnone =>
    simp only [Prod.mk.injEq, and_true] at h
    subst h
    left
    by_cases ho : m.output = m.expectedOutput <;> simp [ho, MState.isTerminal]
  next inst hsome =>
    split at h
    next e2 hexec => simp at h
    next m2 hexec =>
      simp only [Prod.mk.injEq, and_true] at h
      subst h
      right
      obtain ⟨hi, _, _, _, _, _⟩ := executeInstruction_frame m inst m2 hexec
      refine ⟨hi, rfl, ?_⟩
      by_contra hc
      rw [List.getElem?_eq_none_iff.mpr (Nat.le_of_not_lt hc)] at hsome
      cases hsome

/-- Steps remaining before `executeAllFuel` must reach a terminal state. -/
def neededFuel (m : Machine) : Nat :=
  if m.state.isTerminal then 0
  else (m.instructions.length - m.programCounter) + 1

theorem executeAllFuel_reaches (fuel : Nat) :
    ∀ m : Machine, neededFuel m ≤ fuel →
    ((Machine.executeAllFuel fuel m).1.state.isTerminal = true) ∧
    ((Machine.executeAllFuel fuel m).2 =
        Except.ok (decide ((Machine.executeAllFuel fuel m).1.state = MState.haltedSuccess)) ∨
      ∃ e, (Machine.executeAllFuel fuel m).2 = Except.error e ∧
        (Machine.executeAllFuel fuel m).1.state = MState.haltedError ∧
        e ≠ RuntimeError.alreadyTerminated) := by
  induction fuel with
  | zero =>
    intro m hm
    have hterm : m.state.isTerminal = true := by
      unfold neededFuel at hm
      split at hm
      · assumption
      · omega
    exact ⟨hterm, Or.inl rfl⟩
  | succ fuel ih =>
    intro m hm
    by_cases hterm : m.state.isTerminal = true
    · have hred : Machine.executeAllFuel (fuel + 1) m =
          (m, Except.ok (decide (m.state = MState.haltedSuccess))) := by
        unfold Machine.executeAllFuel
        rw [if_pos hterm]
      rw [hred]
      exact ⟨hterm, Or.inl rfl⟩
    · have hterm' : m.state.isTerminal = false := by simpa using hterm
      cases hstep : m.executeNext with
      | mk m1 r =>
        cases r with
        | some e =>
          have hred : Machine.executeAllFuel (fuel + 1) m = (m1, Except.error e) := by
            unfold Machine.executeAllFuel
            rw [if_neg hterm, hstep]
          rw [hred]
          obtain ⟨h1, h2⟩ := executeNext_error_halts m m1 e hterm' hstep
          exact ⟨by simp [h1, MState.isTerminal], Or.inr ⟨e, rfl, h1, h2⟩⟩
        | none =>
          have hred : Machine.executeAllFuel (fuel + 1) m =
              Machine.executeAllFuel fuel m1 := by
            conv_lhs => unfold Machine.executeAllFuel
            rw [if_neg hterm, hstep]
          have hneed : neededFuel m1 ≤ fuel := by
            have hcases := executeNext_ok_cases m m1 hterm' hstep
            unfold neededFuel at hm ⊢
            rw [if_neg hterm] at hm
            rcases hcases with h1 | ⟨hi, hpc, hlt⟩
            · simp [h1]
            · split
              · exact Nat.zero_le _
              · rw [hi, hpc]
                omega
          rw [hred]
          exact ih m1 hneed

/-- C2: for every compiled program and program spec, execute_all terminates
in a terminal state; it returns the boolean that is true iff that terminal
state is HaltedSuccess, or propagates the first RuntimeError encountered (in
which case the machine has halted in error) instead of continuing. -/
theorem execute_all_terminates (p : Program) (spec : ProgramSpec) :
    ((p.allocate spec).executeAll.1.state.isTerminal = true) ∧
    ((p.allocate spec).executeAll.2 =
        Except.ok (decide ((p.allocate spec).executeAll.1.state = MState.haltedSuccess)) ∨
      ∃ e, (p.allocate spec).executeAll.2 = Except.error e ∧
        (p.allocate spec).executeAll.1.state = MState.haltedError ∧
        e ≠ RuntimeError.alreadyTerminated) := by
  unfold Machine.executeAll
  apply executeAllFuel_reaches
  unfold neededFuel
  split
  · exact Nat.zero_le _
  · omega

/-- C3: when a step of the machine drives the program counter past the last
instruction, the machine transitions to HaltedSuccess iff the accumulated
output equals the expected output exactly, and to HaltedFailure otherwise;
the success accessor reports exactly output equality. -/
theorem machine_halt_judges_output (m m1 : Machine)
    (h : m.executeNext = (m1, none)) :
    (m1.state = MState.haltedSuccess ↔
      m.instructions.length ≤ m1.programCounter ∧ m1.output = m.expectedOutput) ∧
    (m1.state = MState.haltedFailure ↔
      m.instructions.length ≤ m1.programCounter ∧ ¬ m1.output = m.expectedOutput) ∧
    m1.expectedOutput = m.expectedOutput ∧
    (m1.isSuccessful = true ↔ m1.output = m1.expectedOutput) := by
  have hterm : m.state.isTerminal = false := by
    by_contra hc
    have hc2 : m.state.isTerminal = true := by simpa using hc
    unfold Machine.executeNext at h
    rw [if_pos hc2] at h
    simp at h
  unfold Machine.executeNext at h
  rw [if_neg (by simp [hterm])] at h
  split at h
  next hnone =>
    simp only [Prod.mk.injEq, and_true] at h
    subst h
    have hlen : m.instructions.length ≤ m.programCounter :=
      List.getElem?_eq_none_iff.mp hnone
    by_cases ho : m.output = m.expectedOutput <;>
      simp [ho, hlen, Machine.isSuccessful]
  next inst hsome =>
    split at h
    next e2 hexec => simp at h
    next m2 hexec =>
      simp only [Prod.mk.injEq, and_true] at h
      subst h
      obtain ⟨hi, he, hpc, hcy, hst, hms⟩ := executeInstruction_frame m inst m2 hexec
      have hlt : m.programCounter < m.instructions.length := by
        by_contra hc
        rw [List.getElem?_eq_none_iff.mpr (Nat.le_of_not_lt hc)] at hsome
        cases hsome
      by_cases hend : m.instructions.length ≤ m.programCounter + 1 <;>
        by_cases ho : m2.output = m.expectedOutput <;>
        simp [hend, ho, he, Machine.isSuccessful]

/-- A machine with no instructions and empty input and expected output, for
exercising the halting transition concretely. -/
def haltSample : Machine :=
  Program.allocate { hardware := testHardware, instructions := [] } ⟨[], []⟩

/-- Witness for C3 at a concrete input: stepping the freshly allocated empty
program halts with success, its empty output matching the empty expected
output. -/
theorem machine_halt_judges_output_witness :
    (Machine.executeNext haltSample).1.state = MState.haltedSuccess :=
  (machine_halt_judges_output haltSample (Machine.executeNext haltSample).1 rfl).1.mpr
    ⟨by decide, rfl⟩

end Gdlk
